import Mathlib

/-!
Shallow embedding of the KaamTamam to-do application's task store (`src/app.py`)
and verification of the store's specification.  Machine integers are modelled by
`Int`/`Nat`, Python strings by `String`, Python lists by `List`, the JSON blob on
disk by explicit record structures, and the persistence side effect by returning
the blob that `save_data` would write (`none` = nothing was written).
-/

namespace Todo

/-- Python `str.strip()` on a character list: drop whitespace from both ends. -/
def stripChars (l : List Char) : List Char :=
  ((l.dropWhile Char.isWhitespace).reverse.dropWhile Char.isWhitespace).reverse

/-- Python `str.strip()`: drop whitespace characters from both ends. -/
def pyStrip (s : String) : String :=
  ⟨stripChars s.data⟩

/-- Python `str.lower()`: character-wise lowercasing. -/
def pyLower (s : String) : String :=
  ⟨s.data.map Char.toLower⟩

/-- Python `needle in hay` on strings: contiguous substring test. -/
def pyIn (needle hay : String) : Bool :=
  decide (needle.data <:+: hay.data)

/-- Gregorian leap year, exactly as Python's `datetime` decides it. -/
def isLeap (y : Nat) : Bool :=
  y % 4 = 0 && (y % 100 != 0 || y % 400 = 0)

/-- Number of days in a month, as `datetime.date` validates it. -/
def daysInMonth (y m : Nat) : Nat :=
  if m = 2 then (if isLeap y then 29 else 28)
  else if m = 4 ∨ m = 6 ∨ m = 9 ∨ m = 11 then 30
  else 31

/-- A Python `datetime.date` value (year, month, day). -/
structure Date where
  year : Nat
  month : Nat
  day : Nat
deriving DecidableEq

/-- The typing condition of `datetime.date`: the range Python's constructor accepts. -/
def Date.Valid (d : Date) : Prop :=
  1 ≤ d.year ∧ d.year ≤ 9999 ∧ 1 ≤ d.month ∧ d.month ≤ 12 ∧
    1 ≤ d.day ∧ d.day ≤ daysInMonth d.year d.month

instance (d : Date) : Decidable d.Valid := by
  unfold Date.Valid; infer_instance

/-- Zero-padded 4-digit decimal rendering (`"%04d"` for numbers below 10000). -/
def pad4 (n : Nat) : List Char :=
  [Nat.digitChar (n / 1000 % 10), Nat.digitChar (n / 100 % 10),
   Nat.digitChar (n / 10 % 10), Nat.digitChar (n % 10)]

/-- Zero-padded 2-digit decimal rendering (`"%02d"` for numbers below 100). -/
def pad2 (n : Nat) : List Char :=
  [Nat.digitChar (n / 10 % 10), Nat.digitChar (n % 10)]

/-- Python `date.isoformat()`: `YYYY-MM-DD`. -/
def Date.isoformat (d : Date) : String :=
  ⟨pad4 d.year ++ '-' :: (pad2 d.month ++ '-' :: pad2 d.day)⟩

/-- Split a character list at every `'-'` (the shape check of `"%Y-%m-%d"`). -/
def splitDash : List Char → List (List Char)
  | [] => [[]]
  | c :: cs =>
    if c = '-' then [] :: splitDash cs
    else
      match splitDash cs with
      | [] => [[c]]
      | p :: ps => (c :: p) :: ps

/-- Accumulator form of decimal evaluation of a digit string. -/
def valOfAux : Nat → List Char → Nat
  | a, [] => a
  | a, c :: cs => valOfAux (10 * a + (c.toNat - 48)) cs

/-- Decimal value of a digit string. -/
def valOf (cs : List Char) : Nat :=
  valOfAux 0 cs

/-- Python `datetime.strptime(s, "%Y-%m-%d").date()` wrapped in `try`: the strptime
regex demands a 4-digit year, a 1–2 digit month with value 1–12 and a 1–2 digit day
with value 1–31, and the `date` constructor then checks calendar validity; any
failure yields `none`. -/
def parseIsoDate (s : String) : Option Date :=
  match splitDash s.data with
  | [ys, ms, ds] =>
    if ys.length = 4 && ys.all Char.isDigit &&
        decide (1 ≤ ms.length) && decide (ms.length ≤ 2) && ms.all Char.isDigit &&
        decide (1 ≤ ds.length) && decide (ds.length ≤ 2) && ds.all Char.isDigit then
      let y := valOf ys
      let m := valOf ms
      let d := valOf ds
      if 1 ≤ y ∧ 1 ≤ m ∧ m ≤ 12 ∧ 1 ≤ d ∧ d ≤ 31 ∧ d ≤ daysInMonth y m then
        some ⟨y, m, d⟩
      else none
    else none
  | _ => none

/-- A task as the store holds it in memory (`st.session_state.tasks` entries). -/
structure Task where
  id : Int
  title : String
  done : Bool
  due : Option Date
  priority : Int
  created : String
deriving DecidableEq

/-- The store's state: the ordered task list plus the `next_id` counter. -/
structure State where
  tasks : List Task
  next_id : Int
deriving DecidableEq

/-- One serialized task record as `save_data` writes it (`due` as ISO string or `""`). -/
structure SerTask where
  id : Int
  title : String
  done : Bool
  due : String
  priority : Int
  created : String
deriving DecidableEq

/-- The whole JSON document `save_data` writes. -/
structure SerBlob where
  tasks : List SerTask
  next_id : Int
deriving DecidableEq

/-- `save_data` (app.py lines 87–98): serialize every task, `due` as an ISO date
string or the empty string, `created` defaulted to `now` when falsy. -/
def save_data (now : String) (tasks : List Task) (next_id : Int) : SerBlob :=
  { tasks := tasks.map (fun t =>
      { id := t.id
        title := t.title
        done := t.done
        due := match t.due with
               | some d => d.isoformat
               | none => ""
        priority := t.priority
        created := if t.created = "" then now else t.created })
    next_id := next_id }

/-- A shape-conforming raw record as read back from the JSON blob.  `idVal` and
`priorityVal` are the results of Python `int(...)` on the field (`none` = the
coercion raised; a missing `id` key coerces as `int(0)` and a missing `priority`
key as `int(2)`), `due` is the raw field (`none` = key absent), `created` is `""`
when the key is absent or falsy. -/
structure RawTask where
  idVal : Option Int
  title : String
  done : Bool
  due : Option String
  priorityVal : Option Int
  created : String
deriving DecidableEq

/-- The raw parsed JSON document: its task records and the raw `next_id` field
(`none` = `int(next_id)` raised, which aborts the whole `try` block). -/
structure RawData where
  tasks : List RawTask
  next_id : Option Int
deriving DecidableEq

/-- The clamp in `load_data` (`pr = 1 if pr < 1 else 3 if pr > 3 else pr`, line 72). -/
def clampLoad (pr : Int) : Int :=
  if pr < 1 then 1 else if pr > 3 then 3 else pr

/-- The record-cleaning loop of `load_data` (app.py lines 47–80); `seen` is the set
of already-claimed ids.  Note the source adds an id to `seen` before the title
check, so a record dropped for an empty title still claims its id. -/
def loadClean (now : String) : List RawTask → List Int → List Task
  | [], _ => []
  | t :: ts, seen =>
    match t.idVal with
    | none => loadClean now ts seen
    | some tid =>
      if tid ≤ 0 ∨ tid ∈ seen then loadClean now ts seen
      else if pyStrip t.title = "" then loadClean now ts (tid :: seen)
      else
        { id := tid
          title := pyStrip t.title
          done := t.done
          due := match t.due with
                 | none => none
                 | some s => if s = "" then none else parseIsoDate s
          priority := match t.priorityVal with
                      | none => 2
                      | some pr => clampLoad pr
          created := if t.created = "" then now else t.created } :: loadClean now ts (tid :: seen)

/-- `load_data` (app.py lines 41–84).  A `none` blob stands for a missing file or a
JSON document that fails to parse or to have the expected shape; both degrade to
the empty store with `next_id = 1`, as does a failing `int(next_id)`. -/
def load_data (blob : Option RawData) (now : String) : List Task × Int :=
  match blob with
  | none => ([], 1)
  | some rd =>
    match rd.next_id with
    | none => ([], 1)
    | some nid => (loadClean now rd.tasks [], nid)

/-- Reading a `SerTask` back: every field is present and well-typed, so the `int`
coercions succeed and yield the stored values. -/
def SerTask.toRaw (t : SerTask) : RawTask :=
  { idVal := some t.id
    title := t.title
    done := t.done
    due := some t.due
    priorityVal := some t.priority
    created := t.created }

/-- Reading a whole saved blob back as raw parsed JSON. -/
def SerBlob.toRaw (b : SerBlob) : RawData :=
  { tasks := b.tasks.map SerTask.toRaw
    next_id := some b.next_id }

/-- Outcome signal of `add_task`: the two `st.warning` paths or the added task. -/
inductive AddResult
  | emptyTitle
  | duplicateTitle
  | added (t : Task)
deriving DecidableEq

/-- `add_task` (app.py lines 146–166): strip the title, warn on an empty or
duplicate (case-insensitively equal) title with no state change, otherwise append
a task with `id = next_id`, `priority = int(priority)` and `created = now`, bump
`next_id` and persist.  The third component is the blob written by `save_data`
(`none` = nothing persisted). -/
def add_task (s : State) (title : String) (due : Option Date) (priority : Int)
    (now : String) : State × AddResult × Option SerBlob :=
  let title := pyStrip title
  if title = "" then (s, AddResult.emptyTitle, none)
  else if s.tasks.any (fun t => pyLower t.title == pyLower title) then
    (s, AddResult.duplicateTitle, none)
  else
    let task : Task :=
      { id := s.next_id, title := title, done := false, due := due,
        priority := priority, created := now }
    let tasks := s.tasks ++ [task]
    (⟨tasks, s.next_id + 1⟩, AddResult.added task,
      some (save_data now tasks (s.next_id + 1)))

/-- Update the first list element satisfying `p` (the `for t in tasks: if hit:
mutate; save; return` pattern of the single-task operations); `none` when no
element matches, in which case the loop falls through with no save. -/
def updateFirst (p : Task → Bool) (f : Task → Task) : List Task → Option (List Task)
  | [] => none
  | t :: ts => if p t then some (f t :: ts) else (updateFirst p f ts).map (t :: ·)

/-- `mark_done` (app.py lines 169–175). -/
def mark_done (s : State) (tid : Int) (value : Bool) (now : String) :
    State × Option SerBlob :=
  match updateFirst (fun t => t.id == tid) (fun t => { t with done := value }) s.tasks with
  | none => (s, none)
  | some ts => (⟨ts, s.next_id⟩, some (save_data now ts s.next_id))

/-- `delete_task` (app.py lines 178–181): keep every task with a different id and
always persist. -/
def delete_task (s : State) (tid : Int) (now : String) : State × SerBlob :=
  let ts := s.tasks.filter (fun t => t.id != tid)
  (⟨ts, s.next_id⟩, save_data now ts s.next_id)

/-- Outcome signal of `edit_title`. -/
inductive EditResult
  | emptyTitle
  | edited
  | noHit
deriving DecidableEq

/-- `edit_title` (app.py lines 184–194): warn on an empty stripped title with no
state change; otherwise replace the title of the first task with the given id and
persist.  No duplicate-title check is performed. -/
def edit_title (s : State) (tid : Int) (new_title : String) (now : String) :
    State × EditResult × Option SerBlob :=
  let new_title := pyStrip new_title
  if new_title = "" then (s, EditResult.emptyTitle, none)
  else
    match updateFirst (fun t => t.id == tid) (fun t => { t with title := new_title }) s.tasks with
    | none => (s, EditResult.noHit, none)
    | some ts => (⟨ts, s.next_id⟩, EditResult.edited, some (save_data now ts s.next_id))

/-- `set_due` (app.py lines 197–203). -/
def set_due (s : State) (tid : Int) (due : Option Date) (now : String) :
    State × Option SerBlob :=
  match updateFirst (fun t => t.id == tid) (fun t => { t with due := due }) s.tasks with
  | none => (s, none)
  | some ts => (⟨ts, s.next_id⟩, some (save_data now ts s.next_id))

/-- `clear_due` (app.py lines 206–207). -/
def clear_due (s : State) (tid : Int) (now : String) : State × Option SerBlob :=
  set_due s tid none now

/-- `set_priority` (app.py lines 210–217): the value is clamped with
`max(1, min(3, int(p)))` before being stored on the first task with the id. -/
def set_priority (s : State) (tid : Int) (p : Int) (now : String) :
    State × Option SerBlob :=
  let p := max 1 (min 3 p)
  match updateFirst (fun t => t.id == tid) (fun t => { t with priority := p }) s.tasks with
  | none => (s, none)
  | some ts => (⟨ts, s.next_id⟩, some (save_data now ts s.next_id))

/-- The "Mark all done" footer action (app.py lines 424–428). -/
def mark_all_done (s : State) (now : String) : State × SerBlob :=
  let ts := s.tasks.map (fun t => { t with done := true })
  (⟨ts, s.next_id⟩, save_data now ts s.next_id)

/-- The "Clear completed" footer action (app.py lines 430–433). -/
def clear_completed (s : State) (now : String) : State × SerBlob :=
  let ts := s.tasks.filter (fun t => !t.done)
  (⟨ts, s.next_id⟩, save_data now ts s.next_id)

/-- The sidebar status filter choice. -/
inductive Status
  | all
  | pending
  | done
deriving DecidableEq

/-- The status filter branch (app.py lines 346–349 and 318–321). -/
def filterStatus (status : Status) (l : List Task) : List Task :=
  match status with
  | Status.all => l
  | Status.pending => l.filter (fun t => !t.done)
  | Status.done => l.filter (fun t => t.done)

/-- The search filter branch (app.py lines 351–353 and 322–324): skipped when the
search text is falsy, otherwise a case-insensitive substring match on the title. -/
def filterSearch (search : String) (l : List Task) : List Task :=
  if search = "" then l
  else l.filter (fun t => pyIn (pyLower search) (pyLower t.title))

/-- The boolean the status filter tests for one task. -/
def statusPred (status : Status) (t : Task) : Bool :=
  match status with
  | Status.all => true
  | Status.pending => !t.done
  | Status.done => t.done

/-- The boolean the search filter tests for one task. -/
def searchPred (search : String) (t : Task) : Bool :=
  if search = "" then true
  else pyIn (pyLower search) (pyLower t.title)

/-- The sidebar sort choice. -/
inductive SortKey
  | id
  | title
  | due
  | priority
  | created
deriving DecidableEq

/-- Python comparison of `datetime.date` values: lexicographic on (y, m, d). -/
def Date.le (a b : Date) : Bool :=
  a.year < b.year || (a.year = b.year &&
    (a.month < b.month || (a.month = b.month && a.day ≤ b.day)))

/-- The `Due` sort key `(t["due"] is None, t["due"] or date.max)` (line 360):
dated tasks in date order first, undated tasks last. -/
def dueKeyLe (a b : Task) : Bool :=
  match a.due, b.due with
  | none, none => true
  | none, some _ => false
  | some _, none => true
  | some x, some y => Date.le x y

/-- The rendering pipeline (app.py lines 345–364): status filter, then search
filter, then a stable sort by the chosen key.  Python's `sorted` is modelled by
`List.mergeSort`, which is also a stable merge sort. -/
def viewList (tasks : List Task) (status : Status) (search : String)
    (key : SortKey) : List Task :=
  let v := filterSearch search (filterStatus status tasks)
  match key with
  | SortKey.id => v.mergeSort (fun a b => a.id ≤ b.id)
  | SortKey.title => v.mergeSort (fun a b => pyLower a.title ≤ pyLower b.title)
  | SortKey.due => v.mergeSort dueKeyLe
  | SortKey.priority => v.mergeSort (fun a b => -a.priority ≤ -b.priority)
  | SortKey.created => v.mergeSort (fun a b => a.created ≤ b.created)

/-- The visible subset offered to the drag widget (app.py lines 317–324): the same
status and search filters applied to the full list. -/
def dragView (tasks : List Task) (status : Status) (search : String) : List Task :=
  filterSearch search (filterStatus status tasks)

/-- Python's `{str(t["id"]): t for t in tasks}` dictionary (line 331): the last
record with a given id wins, and lookup fails for an unknown id. -/
def idToTask (tasks : List Task) (i : Int) : Option Task :=
  tasks.reverse.find? (fun t => t.id == i)

/-- The drag-reorder merge (app.py lines 329–337): the reordered visible block
first, then every task whose id is not a visible id, in original relative order. -/
def reorderTasks (tasks : List Task) (status : Status) (search : String)
    (newOrder : List Int) : List Task :=
  let ids := (dragView tasks status search).map Task.id
  let visibleTasks := newOrder.filterMap (idToTask tasks)
  let hiddenTasks := tasks.filter (fun t => !ids.contains t.id)
  visibleTasks ++ hiddenTasks

/-- One store mutation as the running app can perform it, related to the state it
produces.  The reorder step records that the drag widget hands back a permutation
of the ids it was given (the visible ids). -/
inductive Step : State → State → Prop
  | add (s : State) (title : String) (due : Option Date) (priority : Int)
      (now : String) : Step s (add_task s title due priority now).1
  | markDone (s : State) (tid : Int) (value : Bool) (now : String) :
      Step s (mark_done s tid value now).1
  | del (s : State) (tid : Int) (now : String) : Step s (delete_task s tid now).1
  | edit (s : State) (tid : Int) (txt now : String) :
      Step s (edit_title s tid txt now).1
  | setDue (s : State) (tid : Int) (due : Option Date) (now : String) :
      Step s (set_due s tid due now).1
  | setPrio (s : State) (tid : Int) (p : Int) (now : String) :
      Step s (set_priority s tid p now).1
  | reorder (s : State) (status : Status) (search : String) (newOrder : List Int)
      (h : newOrder.Perm ((dragView s.tasks status search).map Task.id)) :
      Step s ⟨reorderTasks s.tasks status search newOrder, s.next_id⟩
  | markAll (s : State) (now : String) : Step s (mark_all_done s now).1
  | clearComp (s : State) (now : String) : Step s (clear_completed s now).1

/-- States reachable from `s` by any sequence of store operations. -/
def Reachable : State → State → Prop :=
  Relation.ReflTransGen Step

/-- The §3 data-model invariants as store-produced tasks satisfy them: a trimmed
non-empty title, priority in [1,3], a calendar-valid due date and a non-empty
created stamp. -/
def Task.WF (t : Task) : Prop :=
  pyStrip t.title = t.title ∧ t.title ≠ "" ∧ 1 ≤ t.priority ∧ t.priority ≤ 3 ∧
    (∀ d ∈ t.due, d.Valid) ∧ t.created ≠ ""

instance (t : Task) : Decidable t.WF := by
  unfold Task.WF; infer_instance

/-- The data-model invariants of a whole collection. -/
def TasksWF (tasks : List Task) : Prop :=
  (tasks.map Task.id).Nodup ∧ (∀ t ∈ tasks, 0 < t.id) ∧ ∀ t ∈ tasks, t.WF

instance (tasks : List Task) : Decidable (TasksWF tasks) := by
  unfold TasksWF; infer_instance

theorem pyLower_empty : pyLower "" = "" := rfl

theorem pyLower_ne_empty {s : String} (h : s ≠ "") : pyLower s ≠ "" := by
  intro hab
  apply h
  have hdata : s.data.map Char.toLower = [] := congrArg String.data hab
  rcases s with ⟨d⟩
  have hd : d = [] := List.map_eq_nil_iff.mp hdata
  subst hd
  rfl

theorem updateFirst_map_field {p : Task → Bool} {f : Task → Task}
    (hf : ∀ t, (f t).id = t.id) :
    ∀ {l l' : List Task}, updateFirst p f l = some l' →
      l'.map Task.id = l.map Task.id := by
  intro l
  induction l with
  | nil => intro l' h; simp [updateFirst] at h
  | cons t ts ih =>
    intro l' h
    by_cases hp : p t
    · simp [updateFirst, hp] at h
      subst h
      simp [hf]
    · simp [updateFirst, hp, Option.map_eq_some'] at h
      obtain ⟨l'', h1, h2⟩ := h
      subst h2
      simp [ih h1]

theorem updateFirst_eq_of_nodup (tid : Int) (f : Task → Task) :
    ∀ (l : List Task), (l.map Task.id).Nodup → tid ∈ l.map Task.id →
      updateFirst (fun t => t.id == tid) f l =
        some (l.map fun t => if t.id = tid then f t else t) := by
  intro l
  induction l with
  | nil => intro _ hm; simp at hm
  | cons t ts ih =>
    intro hn hm
    rw [List.map_cons, List.nodup_cons] at hn
    rw [List.map_cons] at hm
    by_cases h : t.id = tid
    · have hrest : ∀ u ∈ ts, u.id ≠ tid := by
        intro u hu hut
        exact hn.1 (by rw [h, ← hut]; exact List.mem_map_of_mem Task.id hu)
      have hmap : ts.map (fun u => if u.id = tid then f u else u) = ts :=
        (List.map_congr_left fun u hu => if_neg (hrest u hu)).trans (List.map_id' ts)
      simp [updateFirst, h, hmap]
    · have hm' : tid ∈ ts.map Task.id := by
        rcases List.mem_cons.mp hm with h1 | h1
        · exact absurd h1.symm h
        · exact h1
      simp [updateFirst, h, ih hn.2 hm']

/-- C1, counterexample: `add_task` stores the priority unclamped — creating a task
with priority 0 on the empty store stores priority 0, not 1 as the claim states. -/
theorem add_task_clamp_cex :
    (add_task ⟨[], 1⟩ "x" none 0 "T").1.tasks.map Task.priority = [0] ∧
      (add_task ⟨[], 1⟩ "x" none 0 "T").1.tasks.map Task.priority ≠ [1] := by
  decide

/-- C1, amended: a successful create stores the new task with `priority` exactly
as given — `int(priority)` with no clamping — and an out-of-range priority is
never rejected (the only failure paths are the empty and duplicate title). -/
theorem add_task_priority_verbatim (s : State) (title : String) (due : Option Date)
    (p : Int) (now : String) (h1 : pyStrip title ≠ "")
    (h2 : ∀ t ∈ s.tasks, pyLower t.title ≠ pyLower (pyStrip title)) :
    add_task s title due p now =
      (⟨s.tasks ++ [⟨s.next_id, pyStrip title, false, due, p, now⟩], s.next_id + 1⟩,
        AddResult.added ⟨s.next_id, pyStrip title, false, due, p, now⟩,
        some (save_data now
          (s.tasks ++ [⟨s.next_id, pyStrip title, false, due, p, now⟩])
          (s.next_id + 1))) := by
  have hany : s.tasks.any (fun t => pyLower t.title == pyLower (pyStrip title)) = false := by
    simp only [List.any_eq_false, beq_iff_eq]
    exact h2
  simp [add_task, h1, hany]

/-- Witness for the amended C1 theorem: creating with priority 7 stores 7. -/
theorem add_task_priority_verbatim_witness :
    pyStrip "Pay rent" ≠ "" ∧
      (∀ t ∈ ([] : List Task), pyLower t.title ≠ pyLower (pyStrip "Pay rent")) ∧
      add_task ⟨[], 1⟩ "Pay rent" none 7 "T" =
        (⟨[⟨1, "Pay rent", false, none, 7, "T"⟩], 2⟩,
          AddResult.added ⟨1, "Pay rent", false, none, 7, "T"⟩,
          some (save_data "T" [⟨1, "Pay rent", false, none, 7, "T"⟩] 2)) :=
  ⟨by decide, by decide,
    (add_task_priority_verbatim ⟨[], 1⟩ "Pay rent" none 7 "T" (by decide)
      (by decide)).trans (by decide)⟩

/-- C6: create with a title that strips to empty reports the empty-title warning,
leaves the state (collection, its size, `next_id`) unchanged and persists
nothing. -/
theorem add_task_empty_title_noop (s : State) (title : String) (due : Option Date)
    (p : Int) (now : String) (h : pyStrip title = "") :
    (add_task s title due p now).1 = s ∧
      (add_task s title due p now).1.tasks.length = s.tasks.length ∧
      (add_task s title due p now).1.next_id = s.next_id ∧
      (add_task s title due p now).2.1 = AddResult.emptyTitle ∧
      (add_task s title due p now).2.2 = none := by
  simp [add_task, h]

/-- Witness for C6: creating with the whitespace title `"   "` is rejected. -/
theorem add_task_empty_title_noop_witness :
    pyStrip "   " = "" ∧
      ((add_task ⟨[⟨1, "a", false, none, 2, "t"⟩], 2⟩ "   " none 2 "T").1 =
          ⟨[⟨1, "a", false, none, 2, "t"⟩], 2⟩ ∧
        (add_task ⟨[⟨1, "a", false, none, 2, "t"⟩], 2⟩ "   " none 2 "T").1.tasks.length =
          ([⟨1, "a", false, none, 2, "t"⟩] : List Task).length ∧
        (add_task ⟨[⟨1, "a", false, none, 2, "t"⟩], 2⟩ "   " none 2 "T").1.next_id = 2 ∧
        (add_task ⟨[⟨1, "a", false, none, 2, "t"⟩], 2⟩ "   " none 2 "T").2.1 =
          AddResult.emptyTitle ∧
        (add_task ⟨[⟨1, "a", false, none, 2, "t"⟩], 2⟩ "   " none 2 "T").2.2 = none) :=
  ⟨by decide, add_task_empty_title_noop ⟨[⟨1, "a", false, none, 2, "t"⟩], 2⟩ "   " none 2 "T"
    (by decide)⟩

/-- C7: when some stored task's title equals the stripped new title up to case,
create reports the duplicate warning, changes nothing and persists nothing.  The
hypothesis `hwf` records the store invariant that stored titles are stripped and
non-empty. -/
theorem add_task_duplicate_title_noop (s : State) (title : String) (due : Option Date)
    (p : Int) (now : String)
    (hwf : ∀ t ∈ s.tasks, pyStrip t.title = t.title ∧ t.title ≠ "")
    (hdup : ∃ t ∈ s.tasks, pyLower (pyStrip t.title) = pyLower (pyStrip title)) :
    (add_task s title due p now).1 = s ∧
      (add_task s title due p now).1.tasks.length = s.tasks.length ∧
      (add_task s title due p now).1.next_id = s.next_id ∧
      (add_task s title due p now).2.1 = AddResult.duplicateTitle ∧
      (add_task s title due p now).2.2 = none := by
  obtain ⟨t, ht, heq⟩ := hdup
  rw [(hwf t ht).1] at heq
  have hstrip : pyStrip title ≠ "" := by
    intro h0
    rw [h0] at heq
    exact pyLower_ne_empty (hwf t ht).2 (heq.trans pyLower_empty)
  have hany : s.tasks.any (fun u => pyLower u.title == pyLower (pyStrip title)) = true := by
    simp only [List.any_eq_true, beq_iff_eq]
    exact ⟨t, ht, heq⟩
  simp [add_task, hstrip, hany]

/-- Witness for C7: after creating `"Buy milk"`, creating `"buy milk"` fails. -/
theorem add_task_duplicate_title_noop_witness :
    (∀ t ∈ [(⟨1, "Buy milk", false, none, 2, "t"⟩ : Task)],
        pyStrip t.title = t.title ∧ t.title ≠ "") ∧
      (∃ t ∈ [(⟨1, "Buy milk", false, none, 2, "t"⟩ : Task)],
        pyLower (pyStrip t.title) = pyLower (pyStrip "buy milk")) ∧
      ((add_task ⟨[⟨1, "Buy milk", false, none, 2, "t"⟩], 2⟩ "buy milk" none 2 "T").1 =
          ⟨[⟨1, "Buy milk", false, none, 2, "t"⟩], 2⟩ ∧
        (add_task ⟨[⟨1, "Buy milk", false, none, 2, "t"⟩], 2⟩ "buy milk" none 2 "T").2.1 =
          AddResult.duplicateTitle ∧
        (add_task ⟨[⟨1, "Buy milk", false, none, 2, "t"⟩], 2⟩ "buy milk" none 2 "T").2.2 =
          none) :=
  ⟨by decide, by decide,
    (add_task_duplicate_title_noop ⟨[⟨1, "Buy milk", false, none, 2, "t"⟩], 2⟩
        "buy milk" none 2 "T" (by decide) (by decide)).imp id
      (fun h => ⟨h.2.2.1, h.2.2.2⟩)⟩

/-- C9: a title edit whose new title strips to non-empty always succeeds and
persists for a present id — no duplicate-title check is made on edit (there is no
hypothesis about the other titles, and the witness below edits a title into an
exact duplicate of another task's title). -/
theorem edit_title_no_dup_check (s : State) (tid : Int) (txt now : String)
    (hn : (s.tasks.map Task.id).Nodup) (ht : pyStrip txt ≠ "")
    (hm : tid ∈ s.tasks.map Task.id) :
    edit_title s tid txt now =
      (⟨s.tasks.map (fun t => if t.id = tid then { t with title := pyStrip txt } else t),
          s.next_id⟩,
        EditResult.edited,
        some (save_data now
          (s.tasks.map (fun t => if t.id = tid then { t with title := pyStrip txt } else t))
          s.next_id)) := by
  simp only [edit_title]
  rw [if_neg ht, updateFirst_eq_of_nodup tid _ s.tasks hn hm]

/-- Witness for C9: with `#1 "Buy milk"` and `#2 "Walk dog"` stored, editing task 2's
title to `"buy milk"` succeeds and persists although task 1 already carries that
title up to case. -/
theorem edit_title_no_dup_check_witness :
    (([(⟨1, "Buy milk", false, none, 2, "t"⟩ : Task),
        ⟨2, "Walk dog", false, none, 2, "t"⟩].map Task.id).Nodup) ∧
      pyStrip "buy milk" ≠ "" ∧
      (2 : Int) ∈ [(⟨1, "Buy milk", false, none, 2, "t"⟩ : Task),
        ⟨2, "Walk dog", false, none, 2, "t"⟩].map Task.id ∧
      edit_title ⟨[⟨1, "Buy milk", false, none, 2, "t"⟩,
          ⟨2, "Walk dog", false, none, 2, "t"⟩], 3⟩ 2 "buy milk" "N" =
        (⟨[⟨1, "Buy milk", false, none, 2, "t"⟩, ⟨2, "buy milk", false, none, 2, "t"⟩], 3⟩,
          EditResult.edited,
          some (save_data "N" [⟨1, "Buy milk", false, none, 2, "t"⟩,
            ⟨2, "buy milk", false, none, 2, "t"⟩] 3)) :=
  ⟨by decide, by decide, by decide,
    (edit_title_no_dup_check ⟨[⟨1, "Buy milk", false, none, 2, "t"⟩,
        ⟨2, "Walk dog", false, none, 2, "t"⟩], 3⟩ 2 "buy milk" "N" (by decide) (by decide)
      (by decide)).trans (by decide)⟩

/-- C10: for a present id, the priority update stores `p` clamped into [1,3] on
that task and changes nothing else: every other task, the updated task's other
fields, the order, and `next_id` are untouched, and the updated collection is
persisted. -/
theorem set_priority_frame (s : State) (tid p : Int) (now : String)
    (hn : (s.tasks.map Task.id).Nodup) (hm : tid ∈ s.tasks.map Task.id) :
    (set_priority s tid p now).1.tasks =
        s.tasks.map (fun t =>
          if t.id = tid then { t with priority := max 1 (min 3 p) } else t) ∧
      (set_priority s tid p now).1.next_id = s.next_id ∧
      1 ≤ max 1 (min 3 p) ∧ max 1 (min 3 p) ≤ 3 ∧
      (set_priority s tid p now).2 =
        some (save_data now ((set_priority s tid p now).1.tasks) s.next_id) := by
  simp only [set_priority]
  rw [updateFirst_eq_of_nodup tid _ s.tasks hn hm]
  refine ⟨rfl, rfl, ?_, ?_, rfl⟩ <;> omega

/-- Witness for C10: setting priority 7 on task 1 stores 3 and leaves everything
else of the two-task store unchanged. -/
theorem set_priority_frame_witness :
    (([(⟨1, "a", false, none, 2, "t"⟩ : Task), ⟨2, "b", true, none, 1, "u"⟩].map
        Task.id).Nodup) ∧
      (1 : Int) ∈ [(⟨1, "a", false, none, 2, "t"⟩ : Task),
        ⟨2, "b", true, none, 1, "u"⟩].map Task.id ∧
      (set_priority ⟨[⟨1, "a", false, none, 2, "t"⟩, ⟨2, "b", true, none, 1, "u"⟩], 3⟩
          1 7 "N").1.tasks =
        [⟨1, "a", false, none, 3, "t"⟩, ⟨2, "b", true, none, 1, "u"⟩] ∧
      (set_priority ⟨[⟨1, "a", false, none, 2, "t"⟩, ⟨2, "b", true, none, 1, "u"⟩], 3⟩
          1 7 "N").1.next_id = 3 :=
  ⟨by decide, by decide,
    ((set_priority_frame ⟨[⟨1, "a", false, none, 2, "t"⟩, ⟨2, "b", true, none, 1, "u"⟩], 3⟩
        1 7 "N" (by decide) (by decide)).1).trans (by decide),
    (set_priority_frame ⟨[⟨1, "a", false, none, 2, "t"⟩, ⟨2, "b", true, none, 1, "u"⟩], 3⟩
        1 7 "N" (by decide) (by decide)).2.1⟩

theorem dropWhile_dropWhile (p : Char → Bool) :
    ∀ l : List Char, (l.dropWhile p).dropWhile p = l.dropWhile p := by
  intro l
  induction l with
  | nil => rfl
  | cons c cs ih =>
    by_cases h : p c
    · simp [List.dropWhile_cons, h, ih]
    · simp [List.dropWhile_cons, h]

theorem dropWhile_fix_head {p : Char → Bool} {c : Char} {cs : List Char}
    (h : (c :: cs).dropWhile p = c :: cs) : p c = false := by
  by_cases hp : p c
  · rw [List.dropWhile_cons, if_pos hp] at h
    have hlen : (cs.dropWhile p).length ≤ cs.length :=
      (List.dropWhile_suffix p).sublist.length_le
    rw [h] at hlen
    simp at hlen
  · simpa using hp

theorem stripChars_idem (l : List Char) : stripChars (stripChars l) = stripChars l := by
  have hA : ∀ x : List Char,
      (x.dropWhile Char.isWhitespace).dropWhile Char.isWhitespace =
        x.dropWhile Char.isWhitespace := dropWhile_dropWhile Char.isWhitespace
  unfold stripChars
  rcases hr : ((l.dropWhile Char.isWhitespace).reverse.dropWhile Char.isWhitespace).reverse
    with _ | ⟨c, t⟩
  · simp
  · have hstep1 : (c :: t).dropWhile Char.isWhitespace = c :: t := by
      obtain ⟨u, hu⟩ :
          (l.dropWhile Char.isWhitespace).reverse.dropWhile Char.isWhitespace <:+
            (l.dropWhile Char.isWhitespace).reverse := List.dropWhile_suffix _
      have hx2 : l.dropWhile Char.isWhitespace = c :: (t ++ u.reverse) := by
        have h1 := congrArg List.reverse hu
        simp only [List.reverse_append, List.reverse_reverse] at h1
        rw [← h1, hr]
        simp
      have hfix := hA l
      rw [hx2] at hfix
      have hpc : Char.isWhitespace c = false := dropWhile_fix_head hfix
      rw [List.dropWhile_cons, if_neg (by simp [hpc])]
    rw [hstep1]
    have h2 : (c :: t).reverse.dropWhile Char.isWhitespace = (c :: t).reverse := by
      rw [← hr]
      simp only [List.reverse_reverse]
      exact hA _
    rw [h2, ← hr]
    simp

theorem pyStrip_idem (s : String) : pyStrip (pyStrip s) = pyStrip s :=
  congrArg String.mk (stripChars_idem s.data)

theorem clampLoad_bounds (pr : Int) : 1 ≤ clampLoad pr ∧ clampLoad pr ≤ 3 := by
  simp only [clampLoad]
  split_ifs <;> omega

theorem clampLoad_eq_self {pr : Int} (h1 : 1 ≤ pr) (h2 : pr ≤ 3) : clampLoad pr = pr := by
  simp only [clampLoad]
  split_ifs <;> omega

theorem digitChar_isDigit {k : Nat} (h : k < 10) : (Nat.digitChar k).isDigit = true := by
  interval_cases k <;> decide

theorem digitChar_ne_dash {k : Nat} (h : k < 10) : Nat.digitChar k ≠ '-' := by
  interval_cases k <;> decide

theorem digitChar_val {k : Nat} (h : k < 10) : (Nat.digitChar k).toNat - 48 = k := by
  interval_cases k <;> decide

theorem isDigit_toNat {c : Char} (h : c.isDigit = true) : 48 ≤ c.toNat ∧ c.toNat ≤ 57 := by
  simp only [Char.isDigit, Bool.and_eq_true, decide_eq_true_eq] at h
  exact h

theorem valOfAux_lt (cs : List Char) :
    ∀ a : Nat, (∀ c ∈ cs, c.isDigit = true) → valOfAux a cs < (a + 1) * 10 ^ cs.length := by
  induction cs with
  | nil =>
    intro a _
    show a < (a + 1) * 10 ^ (0 : Nat)
    simp
  | cons c cs ih =>
    intro a h
    have hc : c.toNat - 48 ≤ 9 := by
      have := isDigit_toNat (h c (List.mem_cons_self c cs))
      omega
    have h' : ∀ x ∈ cs, x.isDigit = true := fun x hx => h x (List.mem_cons_of_mem c hx)
    calc valOfAux a (c :: cs) = valOfAux (10 * a + (c.toNat - 48)) cs := rfl
      _ < (10 * a + (c.toNat - 48) + 1) * 10 ^ cs.length := ih _ h'
      _ ≤ ((a + 1) * 10) * 10 ^ cs.length := Nat.mul_le_mul_right _ (by omega)
      _ = (a + 1) * 10 ^ (c :: cs).length := by
          rw [List.length_cons, pow_succ]
          ring

theorem valOf_lt (cs : List Char) (h : ∀ c ∈ cs, c.isDigit = true) :
    valOf cs < 10 ^ cs.length := by
  simpa [valOf] using valOfAux_lt cs 0 h

theorem valOfAux_cons (a : Nat) (c : Char) (cs : List Char) :
    valOfAux a (c :: cs) = valOfAux (10 * a + (c.toNat - 48)) cs := rfl

theorem valOfAux_nil (a : Nat) : valOfAux a [] = a := rfl

theorem valOf_pad4 {n : Nat} (h : n ≤ 9999) : valOf (pad4 n) = n := by
  have e1 := digitChar_val (Nat.mod_lt (n / 1000) (by norm_num))
  have e2 := digitChar_val (Nat.mod_lt (n / 100) (by norm_num))
  have e3 := digitChar_val (Nat.mod_lt (n / 10) (by norm_num))
  have e4 := digitChar_val (Nat.mod_lt n (by norm_num))
  show valOfAux 0 (pad4 n) = n
  rw [pad4, valOfAux_cons, valOfAux_cons, valOfAux_cons, valOfAux_cons, valOfAux_nil,
    e1, e2, e3, e4]
  omega

theorem valOf_pad2 {n : Nat} (h : n ≤ 99) : valOf (pad2 n) = n := by
  have e3 := digitChar_val (Nat.mod_lt (n / 10) (by norm_num))
  have e4 := digitChar_val (Nat.mod_lt n (by norm_num))
  show valOfAux 0 (pad2 n) = n
  rw [pad2, valOfAux_cons, valOfAux_cons, valOfAux_nil, e3, e4]
  omega

theorem pad4_ne_dash (n : Nat) : ∀ c ∈ pad4 n, c ≠ '-' := by
  intro c hc
  simp only [pad4, List.mem_cons, List.not_mem_nil, or_false] at hc
  rcases hc with h | h | h | h <;>
    (subst h; exact digitChar_ne_dash (Nat.mod_lt _ (by norm_num)))

theorem pad2_ne_dash (n : Nat) : ∀ c ∈ pad2 n, c ≠ '-' := by
  intro c hc
  simp only [pad2, List.mem_cons, List.not_mem_nil, or_false] at hc
  rcases hc with h | h <;>
    (subst h; exact digitChar_ne_dash (Nat.mod_lt _ (by norm_num)))

theorem pad4_digits (n : Nat) : ∀ c ∈ pad4 n, c.isDigit = true := by
  intro c hc
  simp only [pad4, List.mem_cons, List.not_mem_nil, or_false] at hc
  rcases hc with h | h | h | h <;>
    (subst h; exact digitChar_isDigit (Nat.mod_lt _ (by norm_num)))

theorem pad2_digits (n : Nat) : ∀ c ∈ pad2 n, c.isDigit = true := by
  intro c hc
  simp only [pad2, List.mem_cons, List.not_mem_nil, or_false] at hc
  rcases hc with h | h <;>
    (subst h; exact digitChar_isDigit (Nat.mod_lt _ (by norm_num)))

theorem splitDash_no_dash (xs : List Char) (h : ∀ c ∈ xs, c ≠ '-') :
    splitDash xs = [xs] := by
  induction xs with
  | nil => rfl
  | cons c cs ih =>
    have hc : ¬ c = '-' := h c (List.mem_cons_self c cs)
    rw [splitDash, if_neg hc, ih (fun x hx => h x (List.mem_cons_of_mem c hx))]

theorem splitDash_append (xs rest : List Char) (h : ∀ c ∈ xs, c ≠ '-') :
    splitDash (xs ++ '-' :: rest) = xs :: splitDash rest := by
  induction xs with
  | nil =>
    show splitDash ('-' :: rest) = [] :: splitDash rest
    rw [splitDash, if_pos rfl]
  | cons c cs ih =>
    have hc : ¬ c = '-' := h c (List.mem_cons_self c cs)
    rw [List.cons_append, splitDash, if_neg hc,
      ih (fun x hx => h x (List.mem_cons_of_mem c hx))]

theorem daysInMonth_le (y m : Nat) : daysInMonth y m ≤ 31 := by
  simp only [daysInMonth]
  split_ifs <;> simp

theorem parseIso_isoformat {d : Date} (h : d.Valid) : parseIsoDate d.isoformat = some d := by
  obtain ⟨hy1, hy2, hm1, hm2, hd1, hd2⟩ := h
  rcases d with ⟨y, m, dd⟩
  simp only [Date.Valid] at hy1 hy2 hm1 hm2 hd1 hd2
  have hd31 : dd ≤ 31 := le_trans hd2 (daysInMonth_le y m)
  have hsplit : splitDash (pad4 y ++ '-' :: (pad2 m ++ '-' :: pad2 dd)) =
      [pad4 y, pad2 m, pad2 dd] := by
    rw [splitDash_append (pad4 y) _ (pad4_ne_dash y),
      splitDash_append (pad2 m) _ (pad2_ne_dash m),
      splitDash_no_dash (pad2 dd) (pad2_ne_dash dd)]
  show parseIsoDate ⟨pad4 y ++ '-' :: (pad2 m ++ '-' :: pad2 dd)⟩ = some ⟨y, m, dd⟩
  rw [parseIsoDate]
  simp only [hsplit]
  have hcond : ((pad4 y).length = 4 && (pad4 y).all Char.isDigit &&
      decide (1 ≤ (pad2 m).length) && decide ((pad2 m).length ≤ 2) &&
      (pad2 m).all Char.isDigit &&
      decide (1 ≤ (pad2 dd).length) && decide ((pad2 dd).length ≤ 2) &&
      (pad2 dd).all Char.isDigit) = true := by
    simp only [Bool.and_eq_true, List.all_eq_true, decide_eq_true_eq]
    refine ⟨⟨⟨⟨⟨⟨⟨?_, ?_⟩, ?_⟩, ?_⟩, ?_⟩, ?_⟩, ?_⟩, ?_⟩
    · simp [pad4]
    · exact fun c hc => pad4_digits y c hc
    · simp [pad2]
    · simp [pad2]
    · exact fun c hc => pad2_digits m c hc
    · simp [pad2]
    · simp [pad2]
    · exact fun c hc => pad2_digits dd c hc
  rw [if_pos hcond]
  rw [valOf_pad4 hy2, valOf_pad2 (le_trans hm2 (by norm_num)),
    valOf_pad2 (le_trans hd31 (by norm_num))]
  rw [if_pos ⟨hy1, hm1, hm2, hd1, hd31, hd2⟩]

theorem parseIsoDate_valid {s : String} {d : Date} (h : parseIsoDate s = some d) :
    d.Valid := by
  simp only [parseIsoDate] at h
  split at h
  · rename_i ys ms ds heq
    split_ifs at h with hcond hval
    · simp only [Bool.and_eq_true, List.all_eq_true, decide_eq_true_eq] at hcond
      obtain ⟨⟨⟨⟨⟨⟨⟨hy4, hyd⟩, hc3⟩, hc4⟩, hc5⟩, hc6⟩, hc7⟩, hc8⟩ := hcond
      obtain ⟨h1, h2, h3, h4, h5, h6⟩ := hval
      have hy9999 : valOf ys ≤ 9999 := by
        have hlt := valOf_lt ys hyd
        rw [hy4] at hlt
        omega
      injection h with h'
      subst h'
      simp only [Date.Valid]
      exact ⟨h1, hy9999, h2, h3, h4, h6⟩
  · exact absurd h (by simp)

theorem loadClean_sound (now : String) (raws : List RawTask) :
    ∀ seen : List Int,
      ((loadClean now raws seen).map Task.id).Nodup ∧
        ∀ t ∈ loadClean now raws seen,
          t.id ∉ seen ∧ 0 < t.id ∧ pyStrip t.title = t.title ∧ t.title ≠ "" ∧
            1 ≤ t.priority ∧ t.priority ≤ 3 ∧ ∀ d ∈ t.due, d.Valid := by
  induction raws with
  | nil => intro seen; simp [loadClean]
  | cons r rs ih =>
    intro seen
    rw [loadClean]
    split
    · exact ih seen
    · rename_i tid heq
      by_cases h1 : tid ≤ 0 ∨ tid ∈ seen
      · rw [if_pos h1]; exact ih seen
      · rw [if_neg h1]
        by_cases h2 : pyStrip r.title = ""
        · rw [if_pos h2]
          refine ⟨(ih (tid :: seen)).1, fun t ht => ?_⟩
          have hres := (ih (tid :: seen)).2 t ht
          exact ⟨fun hs => hres.1 (List.mem_cons_of_mem tid hs), hres.2⟩
        · rw [if_neg h2]
          constructor
          · rw [List.map_cons, List.nodup_cons]
            refine ⟨?_, (ih (tid :: seen)).1⟩
            intro hmem
            obtain ⟨t, ht, hti⟩ := List.mem_map.mp hmem
            exact ((ih (tid :: seen)).2 t ht).1 (hti ▸ List.mem_cons_self tid seen)
          · intro t ht
            rcases List.mem_cons.mp ht with hh | hh
            · subst hh
              push_neg at h1
              obtain ⟨h1a, h1b⟩ := h1
              dsimp only
              refine ⟨h1b, by omega, pyStrip_idem r.title, h2, ?_, ?_, ?_⟩
              · cases r.priorityVal with
                | none => norm_num
                | some pr => simpa using (clampLoad_bounds pr).1
              · cases r.priorityVal with
                | none => norm_num
                | some pr => simpa using (clampLoad_bounds pr).2
              · cases r.due with
                | none => simp
                | some sdu =>
                  by_cases hse : sdu = ""
                  · simp [hse]
                  · simp only [if_neg hse, Option.mem_def]
                    intro dte hdte
                    exact parseIsoDate_valid hdte
            · have hres := (ih (tid :: seen)).2 t hh
              exact ⟨fun hs => hres.1 (List.mem_cons_of_mem tid hs), hres.2⟩

/-- C4: load never fails the caller — an absent or unparseable blob yields the
empty collection with `next_id = 1`, and whatever the blob holds, every returned
task has a positive id (pairwise distinct across the collection), a non-empty
trimmed title, a priority in [1,3], and a due date only when it parsed as a valid
ISO calendar date; offending records are dropped. -/
theorem load_data_total_and_invariants :
    (∀ now, load_data none now = ([], 1)) ∧
      ∀ (blob : Option RawData) (now : String),
        ((load_data blob now).1.map Task.id).Nodup ∧
          ∀ t ∈ (load_data blob now).1,
            0 < t.id ∧ pyStrip t.title = t.title ∧ t.title ≠ "" ∧
              1 ≤ t.priority ∧ t.priority ≤ 3 ∧ ∀ d ∈ t.due, d.Valid := by
  refine ⟨fun _ => rfl, ?_⟩
  intro blob now
  rcases blob with _ | rd
  · simp [load_data]
  · rcases hnid : rd.next_id with _ | nid
    · simp [load_data, hnid]
    · simp only [load_data, hnid]
      have h := loadClean_sound now rd.tasks []
      exact ⟨h.1, fun t ht => (h.2 t ht).2⟩

/-- Witness for C4 on a blob holding a duplicate id, a whitespace title, an
invalid calendar due date and an out-of-range priority. -/
theorem load_data_total_and_invariants_witness :
    load_data none "N" = ([], 1) ∧
      (((load_data (some ⟨[⟨some 1, " a ", false, some "2024-02-30", some 7, "t"⟩,
          ⟨some 1, "b", false, none, some 2, "t"⟩,
          ⟨some 2, "   ", false, none, some 2, "t"⟩,
          ⟨none, "c", false, none, some 2, "t"⟩,
          ⟨some 3, "d", true, some "2024-02-29", none, ""⟩], some 9⟩) "N").1.map
            Task.id).Nodup) ∧
      (0 < (⟨3, "d", true, some ⟨2024, 2, 29⟩, 2, "N"⟩ : Task).id ∧
        pyStrip (⟨3, "d", true, some ⟨2024, 2, 29⟩, 2, "N"⟩ : Task).title =
          (⟨3, "d", true, some ⟨2024, 2, 29⟩, 2, "N"⟩ : Task).title ∧
        (⟨3, "d", true, some ⟨2024, 2, 29⟩, 2, "N"⟩ : Task).title ≠ "" ∧
        1 ≤ (⟨3, "d", true, some ⟨2024, 2, 29⟩, 2, "N"⟩ : Task).priority ∧
        (⟨3, "d", true, some ⟨2024, 2, 29⟩, 2, "N"⟩ : Task).priority ≤ 3 ∧
        ∀ d ∈ (⟨3, "d", true, some ⟨2024, 2, 29⟩, 2, "N"⟩ : Task).due, d.Valid) :=
  ⟨load_data_total_and_invariants.1 "N",
    (load_data_total_and_invariants.2 (some ⟨[⟨some 1, " a ", false, some "2024-02-30", some 7, "t"⟩,
      ⟨some 1, "b", false, none, some 2, "t"⟩,
      ⟨some 2, "   ", false, none, some 2, "t"⟩,
      ⟨none, "c", false, none, some 2, "t"⟩,
      ⟨some 3, "d", true, some "2024-02-29", none, ""⟩], some 9⟩) "N").1,
    (load_data_total_and_invariants.2 (some ⟨[⟨some 1, " a ", false, some "2024-02-30", some 7, "t"⟩,
      ⟨some 1, "b", false, none, some 2, "t"⟩,
      ⟨some 2, "   ", false, none, some 2, "t"⟩,
      ⟨none, "c", false, none, some 2, "t"⟩,
      ⟨some 3, "d", true, some "2024-02-29", none, ""⟩], some 9⟩) "N").2
      ⟨3, "d", true, some ⟨2024, 2, 29⟩, 2, "N"⟩ (by decide)⟩

theorem isoformat_ne_empty (d : Date) : d.isoformat ≠ "" := by
  intro h
  have h2 := congrArg String.data h
  simp [Date.isoformat, pad4] at h2

theorem loadClean_toRaw (now now2 : String) :
    ∀ (tasks : List Task) (seen : List Int),
      (tasks.map Task.id).Nodup →
      (∀ t ∈ tasks, 0 < t.id ∧ t.id ∉ seen) →
      (∀ t ∈ tasks, t.WF) →
      loadClean now2 ((tasks.map (fun t =>
        ({ id := t.id
           title := t.title
           done := t.done
           due := match t.due with
                  | some d => d.isoformat
                  | none => ""
           priority := t.priority
           created := if t.created = "" then now else t.created } : SerTask))).map
        SerTask.toRaw) seen = tasks := by
  intro tasks
  induction tasks with
  | nil => intro seen _ _ _; rfl
  | cons t ts ih =>
    intro seen hn hpos hwf
    obtain ⟨hw1, hw2, hw3, hw4, hw5, hw6⟩ := hwf t (List.mem_cons_self t ts)
    obtain ⟨hid, hseen⟩ := hpos t (List.mem_cons_self t ts)
    rw [List.map_cons, List.nodup_cons] at hn
    rw [List.map_cons, List.map_cons, loadClean]
    dsimp only [SerTask.toRaw]
    rw [if_neg (by push_neg; exact ⟨by omega, hseen⟩)]
    have hdue : (if (match t.due with
          | some d => d.isoformat
          | none => "") = "" then none
        else parseIsoDate (match t.due with
          | some d => d.isoformat
          | none => "")) = t.due := by
      rcases hdu : t.due with _ | d
      · rfl
      · dsimp only
        rw [if_neg (isoformat_ne_empty d), parseIso_isoformat (hw5 d hdu)]
    have hcreated : (if (if t.created = "" then now else t.created) = "" then now2
        else if t.created = "" then now else t.created) = t.created := by
      rw [if_neg hw6, if_neg hw6]
    have hpos2 : ∀ u ∈ ts, 0 < u.id ∧ u.id ∉ t.id :: seen := by
      intro u hu
      refine ⟨(hpos u (List.mem_cons_of_mem t hu)).1, ?_⟩
      intro hmem
      rcases List.mem_cons.mp hmem with h | h
      · exact hn.1 (h ▸ List.mem_map_of_mem Task.id hu)
      · exact (hpos u (List.mem_cons_of_mem t hu)).2 h
    have hwf2 : ∀ u ∈ ts, u.WF := fun u hu => hwf u (List.mem_cons_of_mem t hu)
    rw [hw1, if_neg hw2, hdue, hcreated, clampLoad_eq_self hw3 hw4,
      ih (t.id :: seen) hn.2 hpos2 hwf2]

/-- C3: loading the blob written by `save_data` restores exactly the same task
sequence, field for field (id, title, done, due, priority, created), and the same
`next_id`, for every collection satisfying the data-model invariants and every
`next_id`. -/
theorem save_load_roundtrip (tasks : List Task) (nid : Int) (now now2 : String)
    (h : TasksWF tasks) :
    load_data (some (save_data now tasks nid).toRaw) now2 = (tasks, nid) := by
  obtain ⟨hn, hpos, hwf⟩ := h
  have hmain := loadClean_toRaw now now2 tasks [] hn
    (fun t ht => ⟨hpos t ht, by simp⟩) hwf
  show (loadClean now2 ((save_data now tasks nid).toRaw.tasks) [], nid) = (tasks, nid)
  exact Prod.ext hmain rfl

/-- Witness for C3 on a two-task store with a leap-day due date. -/
theorem save_load_roundtrip_witness :
    TasksWF [⟨1, "Buy milk", false, some ⟨2024, 2, 29⟩, 2, "2024-01-01T10:00:00"⟩,
        ⟨2, "Walk dog", true, none, 3, "2024-01-02T09:30:00"⟩] ∧
      load_data (some (save_data "N"
          [⟨1, "Buy milk", false, some ⟨2024, 2, 29⟩, 2, "2024-01-01T10:00:00"⟩,
            ⟨2, "Walk dog", true, none, 3, "2024-01-02T09:30:00"⟩] 7).toRaw) "M" =
        ([⟨1, "Buy milk", false, some ⟨2024, 2, 29⟩, 2, "2024-01-01T10:00:00"⟩,
          ⟨2, "Walk dog", true, none, 3, "2024-01-02T09:30:00"⟩], 7) :=
  ⟨by decide,
    save_load_roundtrip [⟨1, "Buy milk", false, some ⟨2024, 2, 29⟩, 2, "2024-01-01T10:00:00"⟩,
      ⟨2, "Walk dog", true, none, 3, "2024-01-02T09:30:00"⟩] 7 "N" "M" (by decide)⟩

theorem filters_eq_filter (tasks : List Task) (status : Status) (search : String) :
    filterSearch search (filterStatus status tasks) =
      tasks.filter (fun t => searchPred search t && statusPred status t) := by
  cases status <;> by_cases hs : search = "" <;>
    simp [filterSearch, filterStatus, statusPred, searchPred, hs, List.filter_filter,
      List.filter_true]

/-- C8: `query(Pending, "", Id)` returns exactly the pending tasks in ascending id
order, `query(All, "milk", Title)` returns exactly the tasks whose title contains
"milk" case-insensitively, sorted by case-insensitive title, and in general the
status filter and the search compose as a conjunction before the sort is
applied. -/
theorem view_query_spec (tasks : List Task) :
    ((viewList tasks Status.pending "" SortKey.id).Perm
        (tasks.filter fun t => !t.done) ∧
      (viewList tasks Status.pending "" SortKey.id).Pairwise (fun a b => a.id ≤ b.id) ∧
      ∀ t : Task, t ∈ viewList tasks Status.pending "" SortKey.id ↔
        t ∈ tasks ∧ t.done = false) ∧
    ((viewList tasks Status.all "milk" SortKey.title).Perm
        (tasks.filter fun t => pyIn (pyLower "milk") (pyLower t.title)) ∧
      (viewList tasks Status.all "milk" SortKey.title).Pairwise
        (fun a b => pyLower a.title ≤ pyLower b.title) ∧
      ∀ t : Task, t ∈ viewList tasks Status.all "milk" SortKey.title ↔
        t ∈ tasks ∧ pyIn (pyLower "milk") (pyLower t.title) = true) ∧
    ∀ (status : Status) (search : String) (key : SortKey),
      (viewList tasks status search key).Perm
        (tasks.filter fun t => searchPred search t && statusPred status t) := by
  refine ⟨?_, ?_, ?_⟩
  · rw [show viewList tasks Status.pending "" SortKey.id =
        (tasks.filter fun t => !t.done).mergeSort (fun a b => a.id ≤ b.id) from rfl]
    refine ⟨List.mergeSort_perm _ _, ?_, ?_⟩
    · have hs := @List.sorted_mergeSort Task (fun a b => decide (a.id ≤ b.id))
        (by intro a b c hab hbc; simp only [decide_eq_true_eq] at *; omega)
        (by intro a b; simp only [Bool.or_eq_true, decide_eq_true_eq]; omega)
        (tasks.filter fun t => !t.done)
      exact hs.imp (fun h => by simpa using h)
    · intro t
      rw [(List.mergeSort_perm _ _).mem_iff, List.mem_filter]
      simp
  · rw [show viewList tasks Status.all "milk" SortKey.title =
        (tasks.filter fun t => pyIn (pyLower "milk") (pyLower t.title)).mergeSort
          (fun a b => pyLower a.title ≤ pyLower b.title) from rfl]
    refine ⟨List.mergeSort_perm _ _, ?_, ?_⟩
    · have hs := @List.sorted_mergeSort Task
        (fun a b => decide (pyLower a.title ≤ pyLower b.title))
        (by intro a b c hab hbc; simp only [decide_eq_true_eq] at *
            exact le_trans hab hbc)
        (by intro a b; simp only [Bool.or_eq_true, decide_eq_true_eq]
            exact le_total _ _)
        (tasks.filter fun t => pyIn (pyLower "milk") (pyLower t.title))
      exact hs.imp (fun h => by simpa using h)
    · intro t
      rw [(List.mergeSort_perm _ _).mem_iff, List.mem_filter]
  · intro status search key
    rw [← filters_eq_filter tasks status search]
    cases key <;> exact List.mergeSort_perm _ _

/-- Witness for C8 at a concrete three-task store, extracted from the general
theorem. -/
theorem view_query_spec_witness :
    (viewList [⟨1, "Buy milk", true, none, 2, "t"⟩, ⟨3, "Read", false, none, 1, "t"⟩,
        ⟨2, "Get MILK", false, none, 3, "t"⟩] Status.pending "" SortKey.id).Perm
      ([⟨1, "Buy milk", true, none, 2, "t"⟩, ⟨3, "Read", false, none, 1, "t"⟩,
        ⟨2, "Get MILK", false, none, 3, "t"⟩].filter fun t => !t.done) ∧
    (viewList [⟨1, "Buy milk", true, none, 2, "t"⟩, ⟨3, "Read", false, none, 1, "t"⟩,
        ⟨2, "Get MILK", false, none, 3, "t"⟩] Status.all "milk" SortKey.title).Pairwise
      (fun a b => pyLower a.title ≤ pyLower b.title) :=
  ⟨(view_query_spec [⟨1, "Buy milk", true, none, 2, "t"⟩, ⟨3, "Read", false, none, 1, "t"⟩,
      ⟨2, "Get MILK", false, none, 3, "t"⟩]).1.1,
    (view_query_spec [⟨1, "Buy milk", true, none, 2, "t"⟩, ⟨3, "Read", false, none, 1, "t"⟩,
      ⟨2, "Get MILK", false, none, 3, "t"⟩]).2.1.2.1⟩

theorem dragView_eq (tasks : List Task) (status : Status) (search : String) :
    dragView tasks status search =
      tasks.filter (fun t => searchPred search t && statusPred status t) :=
  filters_eq_filter tasks status search

theorem idToTask_exists {tasks : List Task} {i : Int} (h : i ∈ tasks.map Task.id) :
    ∃ t, idToTask tasks i = some t ∧ t.id = i ∧ t ∈ tasks := by
  obtain ⟨u, hu, hui⟩ := List.mem_map.mp h
  have hex : ∃ x ∈ tasks.reverse, (fun v => v.id == i) x = true :=
    ⟨u, List.mem_reverse.mpr hu, by simp [hui]⟩
  obtain ⟨v, hfind⟩ := Option.isSome_iff_exists.mp (List.find?_isSome.mpr hex)
  refine ⟨v, hfind, ?_, List.mem_reverse.mp (List.mem_of_find?_eq_some hfind)⟩
  simpa using List.find?_some hfind

theorem idToTask_mem {tasks : List Task} {t : Task} (hn : (tasks.map Task.id).Nodup)
    (ht : t ∈ tasks) : idToTask tasks t.id = some t := by
  obtain ⟨v, hfind, hvi, hv⟩ := idToTask_exists (List.mem_map_of_mem Task.id ht)
  rw [hfind, List.inj_on_of_nodup_map hn hv ht hvi]

theorem filterMap_idToTask_map_id {tasks : List Task} :
    ∀ l : List Int, (∀ i ∈ l, i ∈ tasks.map Task.id) →
      (l.filterMap (idToTask tasks)).map Task.id = l := by
  intro l
  induction l with
  | nil => intro _; rfl
  | cons i l ih =>
    intro h
    obtain ⟨t, hf, hti, _⟩ := idToTask_exists (h i (List.mem_cons_self i l))
    simp only [List.filterMap_cons, hf, List.map_cons, hti,
      ih (fun j hj => h j (List.mem_cons_of_mem i hj))]

theorem filterMap_eq_self {l : List Task} {f : Task → Option Task}
    (h : ∀ x ∈ l, f x = some x) : l.filterMap f = l := by
  induction l with
  | nil => rfl
  | cons t ts ih =>
    simp only [List.filterMap_cons, h t (List.mem_cons_self t ts),
      ih (fun x hx => h x (List.mem_cons_of_mem t hx))]

theorem contains_visible_ids {tasks : List Task} {t : Task} {p : Task → Bool}
    (hn : (tasks.map Task.id).Nodup) (ht : t ∈ tasks) :
    ((tasks.filter p).map Task.id).contains t.id = p t := by
  cases hpt : p t
  · refine Bool.eq_false_iff.mpr ?_
    intro hcon
    have hmem : t.id ∈ (tasks.filter p).map Task.id := by simpa using hcon
    obtain ⟨u, hu, hui⟩ := List.mem_map.mp hmem
    obtain ⟨hu1, hu2⟩ := List.mem_filter.mp hu
    rw [List.inj_on_of_nodup_map hn hu1 ht hui] at hu2
    exact absurd hu2 (by simp [hpt])
  · have hmem : t.id ∈ (tasks.filter p).map Task.id :=
      List.mem_map_of_mem Task.id (List.mem_filter.mpr ⟨ht, hpt⟩)
    simpa using hmem

theorem reorderTasks_perm {tasks : List Task} {status : Status} {search : String}
    {newOrder : List Int} (hn : (tasks.map Task.id).Nodup)
    (hperm : newOrder.Perm ((dragView tasks status search).map Task.id)) :
    (reorderTasks tasks status search newOrder).Perm tasks := by
  have hsub : ∀ x ∈ dragView tasks status search, x ∈ tasks := by
    intro x hx
    rw [dragView_eq] at hx
    exact (List.mem_filter.mp hx).1
  have h2 : ((dragView tasks status search).map Task.id).filterMap (idToTask tasks) =
      dragView tasks status search := by
    rw [List.filterMap_map]
    exact filterMap_eq_self (fun x hx => idToTask_mem hn (hsub x hx))
  have hvis : (newOrder.filterMap (idToTask tasks)).Perm (dragView tasks status search) := by
    rw [← h2]
    exact hperm.filterMap _
  have hhid : tasks.filter (fun t =>
      !((dragView tasks status search).map Task.id).contains t.id) =
      tasks.filter (fun t => !(searchPred search t && statusPred status t)) := by
    refine List.filter_congr ?_
    intro x hx
    rw [dragView_eq, contains_visible_ids hn hx]
  show ((newOrder.filterMap (idToTask tasks)) ++
      tasks.filter (fun t =>
        !((dragView tasks status search).map Task.id).contains t.id)).Perm tasks
  rw [hhid]
  refine (List.Perm.append_right _ hvis).trans ?_
  rw [dragView_eq]
  exact List.filter_append_perm _ tasks

theorem reorderTasks_map_id {tasks : List Task} {status : Status} {search : String}
    {newOrder : List Int} (h : ∀ i ∈ newOrder, i ∈ tasks.map Task.id) :
    (reorderTasks tasks status search newOrder).map Task.id =
      newOrder ++ (tasks.filter (fun t =>
        !((dragView tasks status search).map Task.id).contains t.id)).map Task.id := by
  show ((newOrder.filterMap (idToTask tasks)) ++
      tasks.filter (fun t =>
        !((dragView tasks status search).map Task.id).contains t.id)).map Task.id = _
  rw [List.map_append, filterMap_idToTask_map_id newOrder h]

/-- C5: when the drag widget returns a permutation of the visible (filtered and
searched) ids, the merged collection lists exactly the tasks of `newOrder` first,
in that order, followed by the tasks outside the visible subset in their original
relative order (they form a sublist of the original collection), and the whole
result is a permutation of the original collection. -/
theorem reorder_visible_first_hidden_stable (tasks : List Task) (status : Status)
    (search : String) (newOrder : List Int)
    (hn : (tasks.map Task.id).Nodup)
    (hperm : newOrder.Perm ((dragView tasks status search).map Task.id)) :
    (reorderTasks tasks status search newOrder).map Task.id =
        newOrder ++ (tasks.filter (fun t =>
          !((dragView tasks status search).map Task.id).contains t.id)).map Task.id ∧
      (tasks.filter (fun t =>
        !((dragView tasks status search).map Task.id).contains t.id)).Sublist tasks ∧
      (reorderTasks tasks status search newOrder).Perm tasks := by
  refine ⟨reorderTasks_map_id ?_, List.filter_sublist tasks, reorderTasks_perm hn hperm⟩
  intro i hi
  have hvi : i ∈ (dragView tasks status search).map Task.id := hperm.mem_iff.mp hi
  rw [dragView_eq] at hvi
  obtain ⟨u, hu, hui⟩ := List.mem_map.mp hvi
  exact hui ▸ List.mem_map_of_mem Task.id (List.mem_filter.mp hu).1

/-- Witness for C5: dragging the pending tasks `#3, #1` above a completed `#2`. -/
theorem reorder_visible_first_hidden_stable_witness :
    (([⟨1, "A", false, none, 2, "t"⟩, ⟨2, "B", true, none, 2, "t"⟩,
        ⟨3, "C", false, none, 2, "t"⟩] : List Task).map Task.id).Nodup ∧
      ([3, 1] : List Int).Perm
        ((dragView [⟨1, "A", false, none, 2, "t"⟩, ⟨2, "B", true, none, 2, "t"⟩,
          ⟨3, "C", false, none, 2, "t"⟩] Status.pending "").map Task.id) ∧
      (reorderTasks [⟨1, "A", false, none, 2, "t"⟩, ⟨2, "B", true, none, 2, "t"⟩,
          ⟨3, "C", false, none, 2, "t"⟩] Status.pending "" [3, 1]).map Task.id =
        [3, 1] ++ (([⟨1, "A", false, none, 2, "t"⟩, ⟨2, "B", true, none, 2, "t"⟩,
          ⟨3, "C", false, none, 2, "t"⟩] : List Task).filter (fun t =>
            !((dragView [⟨1, "A", false, none, 2, "t"⟩, ⟨2, "B", true, none, 2, "t"⟩,
              ⟨3, "C", false, none, 2, "t"⟩] Status.pending "").map
                Task.id).contains t.id)).map Task.id ∧
      (reorderTasks [⟨1, "A", false, none, 2, "t"⟩, ⟨2, "B", true, none, 2, "t"⟩,
          ⟨3, "C", false, none, 2, "t"⟩] Status.pending "" [3, 1]).Perm
        [⟨1, "A", false, none, 2, "t"⟩, ⟨2, "B", true, none, 2, "t"⟩,
          ⟨3, "C", false, none, 2, "t"⟩] :=
  ⟨by decide, by decide,
    (reorder_visible_first_hidden_stable [⟨1, "A", false, none, 2, "t"⟩,
        ⟨2, "B", true, none, 2, "t"⟩, ⟨3, "C", false, none, 2, "t"⟩]
        Status.pending "" [3, 1] (by decide) (by decide)).1,
    (reorder_visible_first_hidden_stable [⟨1, "A", false, none, 2, "t"⟩,
        ⟨2, "B", true, none, 2, "t"⟩, ⟨3, "C", false, none, 2, "t"⟩]
        Status.pending "" [3, 1] (by decide) (by decide)).2.2⟩

theorem load_data_ids (blob : Option RawData) (now : String) :
    ((load_data blob now).1.map Task.id).Nodup ∧
      ∀ t ∈ (load_data blob now).1, 0 < t.id := by
  rcases blob with _ | rd
  · simp [load_data]
  · rcases hnid : rd.next_id with _ | nid
    · simp [load_data, hnid]
    · simp only [load_data, hnid]
      have h := loadClean_sound now rd.tasks []
      exact ⟨h.1, fun t ht => (h.2 t ht).2.1⟩

theorem inv_updateFirst {l : List Task} {n : Int} {p : Task → Bool} {f : Task → Task}
    {res : List Task} (hres : updateFirst p f l = some res)
    (hf : ∀ t, (f t).id = t.id)
    (hn : (l.map Task.id).Nodup) (hb : ∀ i ∈ l.map Task.id, 0 < i ∧ i < n)
    (hpos : 0 < n) :
    (res.map Task.id).Nodup ∧ (∀ i ∈ res.map Task.id, 0 < i ∧ i < n) ∧ 0 < n := by
  have hmap := updateFirst_map_field hf hres
  exact ⟨by rw [hmap]; exact hn, by rw [hmap]; exact hb, hpos⟩

theorem step_inv {s s' : State} (h : Step s s')
    (hn : (s.tasks.map Task.id).Nodup)
    (hb : ∀ i ∈ s.tasks.map Task.id, 0 < i ∧ i < s.next_id)
    (hpos : 0 < s.next_id) :
    (s'.tasks.map Task.id).Nodup ∧
      (∀ i ∈ s'.tasks.map Task.id, 0 < i ∧ i < s'.next_id) ∧ 0 < s'.next_id := by
  cases h with
  | add title due priority now =>
    by_cases h1 : pyStrip title = ""
    · have hst : (add_task s title due priority now).1 = s := by simp [add_task, h1]
      rw [hst]
      exact ⟨hn, hb, hpos⟩
    · by_cases h2 : s.tasks.any (fun t => pyLower t.title == pyLower (pyStrip title)) = true
      · have hst : (add_task s title due priority now).1 = s := by simp [add_task, h1, h2]
        rw [hst]
        exact ⟨hn, hb, hpos⟩
      · have hst : (add_task s title due priority now).1 =
            ⟨s.tasks ++ [⟨s.next_id, pyStrip title, false, due, priority, now⟩],
              s.next_id + 1⟩ := by
          simp [add_task, h1, h2]
        rw [hst]
        dsimp only
        refine ⟨?_, ?_, by omega⟩
        · rw [List.map_append, List.nodup_append]
          refine ⟨hn, by simp, ?_⟩
          intro i hi hcon
          have hlt := (hb i hi).2
          simp at hcon
          omega
        · intro i hi
          rw [List.map_append] at hi
          rcases List.mem_append.mp hi with hh | hh
          · exact ⟨(hb i hh).1, by have := (hb i hh).2; omega⟩
          · simp at hh
            subst hh
            exact ⟨hpos, by omega⟩
  | markDone tid value now =>
    cases hu : updateFirst (fun t => t.id == tid) (fun t => { t with done := value })
        s.tasks with
    | none =>
      have hst : (mark_done s tid value now).1 = s := by simp [mark_done, hu]
      rw [hst]
      exact ⟨hn, hb, hpos⟩
    | some ts =>
      have hst : (mark_done s tid value now).1 = ⟨ts, s.next_id⟩ := by
        simp [mark_done, hu]
      rw [hst]
      dsimp only
      exact inv_updateFirst hu (fun t => rfl) hn hb hpos
  | del tid now =>
    have hst : (delete_task s tid now).1 =
        ⟨s.tasks.filter (fun t => t.id != tid), s.next_id⟩ := rfl
    rw [hst]
    dsimp only
    have hsub : ((s.tasks.filter (fun t => t.id != tid)).map Task.id).Sublist
        (s.tasks.map Task.id) := (List.filter_sublist s.tasks).map Task.id
    exact ⟨List.Nodup.sublist hsub hn, fun i hi => hb i (hsub.subset hi), hpos⟩
  | edit tid txt now =>
    by_cases h1 : pyStrip txt = ""
    · have hst : (edit_title s tid txt now).1 = s := by simp [edit_title, h1]
      rw [hst]
      exact ⟨hn, hb, hpos⟩
    · cases hu : updateFirst (fun t => t.id == tid) (fun t => { t with title := pyStrip txt })
          s.tasks with
      | none =>
        have hst : (edit_title s tid txt now).1 = s := by simp [edit_title, h1, hu]
        rw [hst]
        exact ⟨hn, hb, hpos⟩
      | some ts =>
        have hst : (edit_title s tid txt now).1 = ⟨ts, s.next_id⟩ := by
          simp [edit_title, h1, hu]
        rw [hst]
        dsimp only
        exact inv_updateFirst hu (fun t => rfl) hn hb hpos
  | setDue tid due now =>
    cases hu : updateFirst (fun t => t.id == tid) (fun t => { t with due := due })
        s.tasks with
    | none =>
      have hst : (set_due s tid due now).1 = s := by simp [set_due, hu]
      rw [hst]
      exact ⟨hn, hb, hpos⟩
    | some ts =>
      have hst : (set_due s tid due now).1 = ⟨ts, s.next_id⟩ := by simp [set_due, hu]
      rw [hst]
      dsimp only
      exact inv_updateFirst hu (fun t => rfl) hn hb hpos
  | setPrio tid p now =>
    cases hu : updateFirst (fun t => t.id == tid)
        (fun t => { t with priority := max 1 (min 3 p) }) s.tasks with
    | none =>
      have hst : (set_priority s tid p now).1 = s := by simp [set_priority, hu]
      rw [hst]
      exact ⟨hn, hb, hpos⟩
    | some ts =>
      have hst : (set_priority s tid p now).1 = ⟨ts, s.next_id⟩ := by
        simp [set_priority, hu]
      rw [hst]
      dsimp only
      exact inv_updateFirst hu (fun t => rfl) hn hb hpos
  | reorder status search newOrder hp =>
    dsimp only
    have hperm2 : ((reorderTasks s.tasks status search newOrder).map Task.id).Perm
        (s.tasks.map Task.id) := (reorderTasks_perm hn hp).map Task.id
    exact ⟨hperm2.nodup_iff.mpr hn, fun i hi => hb i (hperm2.subset hi), hpos⟩
  | markAll now =>
    have hst : (mark_all_done s now).1 =
        ⟨s.tasks.map (fun t => { t with done := true }), s.next_id⟩ := rfl
    rw [hst]
    dsimp only
    have hmap : ((s.tasks.map (fun t => { t with done := true })).map Task.id) =
        s.tasks.map Task.id := by
      rw [List.map_map]
      rfl
    exact ⟨by rw [hmap]; exact hn, by rw [hmap]; exact hb, hpos⟩
  | clearComp now =>
    have hst : (clear_completed s now).1 =
        ⟨s.tasks.filter (fun t => !t.done), s.next_id⟩ := rfl
    rw [hst]
    dsimp only
    have hsub : ((s.tasks.filter (fun t => !t.done)).map Task.id).Sublist
        (s.tasks.map Task.id) := (List.filter_sublist s.tasks).map Task.id
    exact ⟨List.Nodup.sublist hsub hn, fun i hi => hb i (hsub.subset hi), hpos⟩

/-- C2, counterexample: `load_data` does not reconcile `next_id` with the loaded
ids.  A parseable blob holding a task with id 1 and `next_id = 1` loads as-is, and
the next create stores a second task with the already-present id 1. -/
theorem load_then_create_duplicate_id_cex :
    ¬ (((add_task
        ⟨(load_data (some ⟨[⟨some 1, "a", false, none, some 2, "t"⟩], some 1⟩) "t").1,
          (load_data (some ⟨[⟨some 1, "a", false, none, some 2, "t"⟩], some 1⟩) "t").2⟩
        "b" none 2 "t").1.tasks.map Task.id).Nodup) := by
  decide

/-- C2, amended: from any loaded state whose `next_id` is positive and exceeds
every loaded id, every state reachable by store operations (with each reorder fed
a permutation of its visible ids, as the drag widget supplies) has pairwise
distinct positive ids — in particular create never reuses a present id. -/
theorem reachable_ids_unique_positive (blob : Option RawData) (now : String) (s : State)
    (hlt : ∀ t ∈ (load_data blob now).1, t.id < (load_data blob now).2)
    (hpos : 0 < (load_data blob now).2)
    (hreach : Reachable ⟨(load_data blob now).1, (load_data blob now).2⟩ s) :
    (s.tasks.map Task.id).Nodup ∧ ∀ t ∈ s.tasks, 0 < t.id := by
  have hids := load_data_ids blob now
  have hbase : (((⟨(load_data blob now).1, (load_data blob now).2⟩ : State).tasks.map
        Task.id).Nodup ∧
      (∀ i ∈ (⟨(load_data blob now).1, (load_data blob now).2⟩ : State).tasks.map Task.id,
        0 < i ∧ i < (⟨(load_data blob now).1, (load_data blob now).2⟩ : State).next_id) ∧
      0 < (⟨(load_data blob now).1, (load_data blob now).2⟩ : State).next_id) := by
    refine ⟨hids.1, ?_, hpos⟩
    intro i hi
    obtain ⟨t, ht, hti⟩ := List.mem_map.mp hi
    exact ⟨hti ▸ hids.2 t ht, hti ▸ hlt t ht⟩
  have hreach2 : Relation.ReflTransGen Step
      ⟨(load_data blob now).1, (load_data blob now).2⟩ s := hreach
  clear hreach
  have hfull : (s.tasks.map Task.id).Nodup ∧
      (∀ i ∈ s.tasks.map Task.id, 0 < i ∧ i < s.next_id) ∧ 0 < s.next_id := by
    induction hreach2 with
    | refl => exact hbase
    | tail hab hbc ih => exact step_inv hbc ih.1 ih.2.1 ih.2.2
  exact ⟨hfull.1, fun t ht => (hfull.2.1 t.id (List.mem_map_of_mem Task.id ht)).1⟩

/-- Witness for the amended C2: load a blob with one task (id 1, `next_id = 2`),
create a second task; both ids stay distinct and positive. -/
theorem reachable_ids_unique_positive_witness :
    (∀ t ∈ (load_data (some ⟨[⟨some 1, "a", false, none, some 2, "t"⟩], some 2⟩) "t").1,
        t.id < (load_data (some ⟨[⟨some 1, "a", false, none, some 2, "t"⟩], some 2⟩) "t").2) ∧
      0 < (load_data (some ⟨[⟨some 1, "a", false, none, some 2, "t"⟩], some 2⟩) "t").2 ∧
      (((add_task
          ⟨(load_data (some ⟨[⟨some 1, "a", false, none, some 2, "t"⟩], some 2⟩) "t").1,
            (load_data (some ⟨[⟨some 1, "a", false, none, some 2, "t"⟩], some 2⟩) "t").2⟩
          "b" none 2 "t").1.tasks.map Task.id).Nodup ∧
        ∀ t ∈ (add_task
          ⟨(load_data (some ⟨[⟨some 1, "a", false, none, some 2, "t"⟩], some 2⟩) "t").1,
            (load_data (some ⟨[⟨some 1, "a", false, none, some 2, "t"⟩], some 2⟩) "t").2⟩
          "b" none 2 "t").1.tasks, 0 < t.id) :=
  ⟨by decide, by decide,
    reachable_ids_unique_positive
      (some ⟨[⟨some 1, "a", false, none, some 2, "t"⟩], some 2⟩) "t"
      (add_task
        ⟨(load_data (some ⟨[⟨some 1, "a", false, none, some 2, "t"⟩], some 2⟩) "t").1,
          (load_data (some ⟨[⟨some 1, "a", false, none, some 2, "t"⟩], some 2⟩) "t").2⟩
        "b" none 2 "t").1
      (by decide) (by decide)
      (Relation.ReflTransGen.single (Step.add
        ⟨(load_data (some ⟨[⟨some 1, "a", false, none, some 2, "t"⟩], some 2⟩) "t").1,
          (load_data (some ⟨[⟨some 1, "a", false, none, some 2, "t"⟩], some 2⟩) "t").2⟩
        "b" none 2 "t"))⟩

end Todo
